import Mathlib

/-!
# Verification of RegExForAutomatedRedactions (src/main.py)

The program converts plain-text search terms into OCR-tolerant regex
patterns.  Its data model is:

* `OCR_REPLACEMENTS` — the static confusion table (a Python dict with
  single-character string keys), embedded as an association list from
  `Char` to the replacement alternation `String`, in source order.
* `replace_with_regex` — the conversion of one search term.  In the
  source this is `_PATTERN.sub(lambda m: OCR_REPLACEMENTS[m.group(0)], s)`
  where `_PATTERN` is the alternation of all (escaped) table keys.  Since
  every key is exactly one character, `re.sub` consumes the input strictly
  left to right, one character per substitution decision; the faithful
  shallow embedding is therefore a left-to-right scan over the characters
  (`patternSub`), followed by optional word-boundary wrapping.
* `process_file` — iterates input lines, strips whitespace, skips lines
  that strip to empty, writes one converted line (newline-terminated) per
  remaining line and counts them.  File-system effects are embedded by an
  `inputExists` flag and a result type recording whether the output file
  was produced and with which lines.
-/

namespace RegexRedact

/-- The OCR confusion table from src/main.py (`OCR_REPLACEMENTS`), as an
association list in source order.  Keys are single characters; values are
the alternation strings, with the literal pipe characters verbatim. -/
def OCR_REPLACEMENTS : List (Char × String) :=
  [ ('l', "[l|1|I]"),
    ('O', "[O|0|Q]"),
    ('0', "[O|0|Q]"),
    ('Q', "[O|0|Q]"),
    ('8', "[8|B]"),
    ('B', "[8|B]"),
    ('w', "[w|vv]"),
    ('v', "[v|u|y]"),
    ('y', "[v|u|y]"),
    ('u', "[u|v]"),
    ('5', "[5|S]"),
    ('S', "[5|S]"),
    ('A', "[4|A]"),
    ('t', "[t|f|i]"),
    ('f', "[t|f]"),
    ('e', "[e|c]"),
    ('c', "[e|c]"),
    ('h', "[h|b|li]"),
    ('b', "[b|h]"),
    ('i', "[i|1|l]"),
    ('I', "[I|l|1]"),
    ('G', "[G|6]"),
    ('6', "[G|6|o]"),
    ('1', "[1|I|l]") ]

/-- Dictionary lookup `OCR_REPLACEMENTS.get(c)`. -/
def lookupReplacement (c : Char) : Option String :=
  OCR_REPLACEMENTS.lookup c

/-- What one matched position of the input contributes to the output of
`_PATTERN.sub`: the table value if the character is a key, otherwise the
character itself. -/
def replacementFor (c : Char) : String :=
  match lookupReplacement c with
  | some repl => repl
  | none => String.singleton c

/-- The action of `_PATTERN.sub(lambda m: OCR_REPLACEMENTS[m.group(0)], s)`
on the character list of `s`: `_PATTERN` is the `|`-alternation of the
escaped single-character keys, so `re.sub` scans left to right and, at each
position, either replaces the single matched key character by its table
value or copies the character unchanged. -/
def patternSub : List Char → String
  | [] => ""
  | c :: rest => replacementFor c ++ patternSub rest

/-- Python's `str.strip()` on the character list: drop whitespace from the
front, then from the back. -/
def stripChars (l : List Char) : List Char :=
  ((l.dropWhile Char.isWhitespace).reverse.dropWhile Char.isWhitespace).reverse

/-- Python's `line.strip()` as used in `process_file`. -/
def strip (s : String) : String := String.mk (stripChars s.data)

/-- `replace_with_regex(searchterm, add_word_boundary)` from src/main.py:
substitute confusion-table characters, then optionally wrap the result in
`\b` anchors. -/
def replace_with_regex (searchterm : String) (add_word_boundary : Bool) : String :=
  let updated_searchterm := patternSub searchterm.data
  if add_word_boundary then "\\b" ++ updated_searchterm ++ "\\b"
  else updated_searchterm

/-- The loop body of `process_file`: iterate the input lines in order,
strip each, skip lines that strip to empty, otherwise emit the converted
line followed by a newline and count it.  Returns the emitted output lines
and the processed count. -/
def processLines : List String → Bool → List String × Nat
  | [], _ => ([], 0)
  | line :: rest, add_word_boundary =>
    let stripped_line := strip line
    if stripped_line = "" then processLines rest add_word_boundary
    else
      let p := processLines rest add_word_boundary
      ((replace_with_regex stripped_line add_word_boundary ++ "\n") :: p.1, p.2 + 1)

/-- Result of one `process_file` call: either the `FileNotFoundError` path
(raised before the output path is opened, so no output file is created or
modified), or success with the output file's lines and the returned count. -/
inductive ProcessResult where
  | fileNotFound : ProcessResult
  | ok (outputLines : List String) (count : Nat) : ProcessResult
  deriving DecidableEq, Repr

/-- `process_file(input_path, output_path, add_word_boundary)` from
src/main.py, with the file system abstracted: `inputExists` is
`input_path.exists()` and `lines` the input file's lines (without their
terminators, as produced by stripping).  If the input does not exist, a
`FileNotFoundError` is raised before the output file is opened; otherwise
the output file is created and the loop runs. -/
def process_file (inputExists : Bool) (lines : List String)
    (add_word_boundary : Bool) : ProcessResult :=
  if !inputExists then ProcessResult.fileNotFound
  else
    let p := processLines lines add_word_boundary
    ProcessResult.ok p.1 p.2

/-- The spec's description of `convertTerm(S, false)` (§4.1, used for C1):
scan `S` left to right, one character at a time, replacing each character
that is a key of the confusion table with that key's alternation string and
passing every other character through unchanged, concatenated in order. -/
def convertTermSpec (s : String) : String :=
  String.join (s.data.map (fun c => (lookupReplacement c).getD (String.singleton c)))

/-- The confusion table exactly as listed in the spec's §4.1 table, row by
row (used for C2). -/
def specTable : List (Char × String) :=
  [ ('l', "[l|1|I]"),
    ('O', "[O|0|Q]"),
    ('0', "[O|0|Q]"),
    ('Q', "[O|0|Q]"),
    ('8', "[8|B]"),
    ('B', "[8|B]"),
    ('w', "[w|vv]"),
    ('v', "[v|u|y]"),
    ('y', "[v|u|y]"),
    ('u', "[u|v]"),
    ('5', "[5|S]"),
    ('S', "[5|S]"),
    ('A', "[4|A]"),
    ('t', "[t|f|i]"),
    ('f', "[t|f]"),
    ('e', "[e|c]"),
    ('c', "[e|c]"),
    ('h', "[h|b|li]"),
    ('b', "[b|h]"),
    ('i', "[i|1|l]"),
    ('I', "[I|l|1]"),
    ('G', "[G|6]"),
    ('6', "[G|6|o]"),
    ('1', "[1|I|l]") ]

/-- C2: `OCR_REPLACEMENTS` is exactly the 24-entry mapping of the spec's
§4.1 table — same keys, same alternation values, no other keys — and every
value contains the literal pipe character verbatim. -/
theorem ocr_replacements_matches_spec_table :
    OCR_REPLACEMENTS = specTable ∧
    OCR_REPLACEMENTS.length = 24 ∧
    ∀ p ∈ OCR_REPLACEMENTS, '|' ∈ p.2.data := by
  refine ⟨rfl, rfl, ?_⟩
  decide

/-- Folding string append from an accumulator pulls the accumulator out. -/
theorem foldl_append_init (l : List String) (x y : String) :
    l.foldl (· ++ ·) (x ++ y) = x ++ l.foldl (· ++ ·) y := by
  induction l generalizing y with
  | nil => rfl
  | cons a rest ih => simp only [List.foldl_cons, String.append_assoc, ih]

/-- `String.join` on a cons cell prepends the head. -/
theorem join_cons_eq (a : String) (l : List String) :
    String.join (a :: l) = a ++ String.join l := by
  have h := foldl_append_init l a ""
  simpa [String.join] using h

/-- `patternSub` agrees with the spec-worded character scan. -/
theorem patternSub_eq_join (l : List Char) :
    patternSub l =
      String.join (l.map (fun c => (lookupReplacement c).getD (String.singleton c))) := by
  induction l with
  | nil => rfl
  | cons c rest ih =>
    simp only [patternSub, List.map_cons, join_cons_eq, ih]
    cases h : lookupReplacement c <;> simp [replacementFor, h]

/-- C1: `convertTerm(S, false)` equals the string obtained by scanning `S`
left to right, one character at a time, replacing each character that is a
confusion-table key by its alternation string and passing every other
character through unchanged, concatenated in order. -/
theorem replace_with_regex_eq_char_scan (s : String) :
    replace_with_regex s false = convertTermSpec s := by
  simp [replace_with_regex, convertTermSpec, patternSub_eq_join]

/-- C8: concrete evaluations — `convertTerm("cat", true)` is
`\b[e|c]a[t|f|i]\b` (the character `a` is not a table key and passes
through), and `convertTerm("bob", false)` is `[b|h]o[b|h]` (lowercase `o`
is not a table key and passes through). -/
theorem convert_cat_and_bob :
    replace_with_regex "cat" true = "\\b[e|c]a[t|f|i]\\b" ∧
    replace_with_regex "bob" false = "[b|h]o[b|h]" := by
  constructor <;> rfl

/-- C5: the boundary flag's entire effect is wrapping the flag-off result
in the two-character word-boundary anchor `\b` on both sides. -/
theorem replace_with_regex_boundary (s : String) :
    replace_with_regex s true = "\\b" ++ replace_with_regex s false ++ "\\b" := by
  simp [replace_with_regex]

/-- When the lookup hits, `replacementFor` is the looked-up value. -/
theorem replacementFor_of_some {c : Char} {r : String}
    (h : lookupReplacement c = some r) : replacementFor c = r := by
  unfold replacementFor
  rw [h]

/-- When the lookup misses, `replacementFor` is the character itself. -/
theorem replacementFor_of_none {c : Char}
    (h : lookupReplacement c = none) : replacementFor c = String.singleton c := by
  unfold replacementFor
  rw [h]

/-- A value produced by an association-list lookup is one of the list's
values. -/
theorem lookup_mem_values {l : List (Char × String)} {c : Char} {r : String}
    (h : l.lookup c = some r) : r ∈ l.map Prod.snd := by
  induction l with
  | nil => simp [List.lookup] at h
  | cons p rest ih =>
    obtain ⟨k, v⟩ := p
    simp only [List.lookup] at h
    split at h
    · injection h with h
      subst h
      simp
    · exact List.mem_cons_of_mem _ (ih h)

/-- Every alternation value in the confusion table is non-empty. -/
theorem table_values_nonempty :
    ∀ r ∈ OCR_REPLACEMENTS.map Prod.snd, 1 ≤ r.length := by
  decide

/-- Each position contributes at least one character to the output. -/
theorem replacementFor_length (c : Char) : 1 ≤ (replacementFor c).length := by
  cases h : lookupReplacement c with
  | none => rw [replacementFor_of_none h]; rfl
  | some r =>
    rw [replacementFor_of_some h]
    exact table_values_nonempty r (lookup_mem_values h)

/-- Substitution on a character list never shortens. -/
theorem patternSub_length (l : List Char) : l.length ≤ (patternSub l).length := by
  induction l with
  | nil => simp [patternSub]
  | cons c rest ih =>
    have h := replacementFor_length c
    simp only [patternSub, List.length_cons, String.length_append]
    omega

/-- C6: substitution only expands — the pattern for `convertTerm(S, false)`
is at least as long as `S`. -/
theorem replace_with_regex_length (s : String) :
    s.length ≤ (replace_with_regex s false).length := by
  have h := patternSub_length s.data
  simpa [replace_with_regex] using h

/-- A character list with no table keys passes through `patternSub`
unchanged. -/
theorem patternSub_no_keys (l : List Char)
    (h : ∀ c ∈ l, lookupReplacement c = none) : patternSub l = String.mk l := by
  induction l with
  | nil => rfl
  | cons c rest ih =>
    have hc := h c (List.mem_cons_self c rest)
    have hrest := ih (fun d hd => h d (List.mem_cons_of_mem c hd))
    rw [patternSub, replacementFor_of_none hc, hrest]
    rfl

/-- C7: for every non-empty trimmed string `S` none of whose characters is
a confusion-table key, `convertTerm(S, false) = S`. -/
theorem replace_with_regex_identity (s : String) (hne : s ≠ "")
    (htrim : strip s = s) (hkeys : ∀ c ∈ s.data, lookupReplacement c = none) :
    replace_with_regex s false = s := by
  simp only [replace_with_regex, Bool.false_eq_true, if_false,
    patternSub_no_keys s.data hkeys]

/-- Witness for C7 at the concrete term "dog" (none of `d`, `o`, `g` is a
table key). -/
theorem replace_with_regex_identity_witness :
    replace_with_regex "dog" false = "dog" :=
  replace_with_regex_identity "dog" (by decide) (by decide) (by decide)

/-- `patternSub` distributes over list concatenation. -/
theorem patternSub_append (a b : List Char) :
    patternSub (a ++ b) = patternSub a ++ patternSub b := by
  induction a with
  | nil =>
    simp [patternSub]
  | cons c rest ih =>
    show replacementFor c ++ patternSub (rest ++ b) =
      (replacementFor c ++ patternSub rest) ++ patternSub b
    rw [ih, String.append_assoc]

/-- C10: `convertTerm(·, false)` is a homomorphism for string
concatenation, and consequently maps the empty string to the empty string
(and, with boundaries, to the bare anchors). -/
theorem replace_with_regex_hom :
    (∀ s t : String,
      replace_with_regex (s ++ t) false =
        replace_with_regex s false ++ replace_with_regex t false) ∧
    replace_with_regex "" false = "" ∧
    replace_with_regex "" true = "\\b\\b" := by
  refine ⟨fun s t => ?_, rfl, rfl⟩
  simp only [replace_with_regex, Bool.false_eq_true, if_false]
  rw [show (s ++ t).data = s.data ++ t.data from rfl, patternSub_append]

/-- The filtered-trimmed view of an input file's lines: the trimmed forms
of the lines that do not trim to empty, in order. -/
def nonBlankTrimmed (lines : List String) : List String :=
  (lines.map strip).filter (fun l => ¬ l = "")

/-- The loop of `process_file` emits exactly the converted non-blank
trimmed lines, newline-terminated, in order, and counts them. -/
theorem processLines_eq (lines : List String) (b : Bool) :
    processLines lines b =
      ((nonBlankTrimmed lines).map (fun l => replace_with_regex l b ++ "\n"),
       (nonBlankTrimmed lines).length) := by
  induction lines with
  | nil => rfl
  | cons line rest ih =>
    simp only [processLines, nonBlankTrimmed, List.map_cons, List.filter_cons]
    by_cases h : strip line = ""
    · simp only [h, if_pos rfl, ih]
      simp [nonBlankTrimmed]
    · rw [if_neg h, ih]
      simp [nonBlankTrimmed, h]

/-- C3: on success, `process_file` writes, for each input line whose
trimmed form is non-empty and in the original order, exactly one output
line equal to `convertTerm(trimmed line, flag)` followed by a single
newline; lines that trim to empty produce no output line; and the returned
count is the number of lines written. -/
theorem process_file_success (lines : List String) (b : Bool) :
    process_file true lines b =
      ProcessResult.ok
        ((nonBlankTrimmed lines).map (fun l => replace_with_regex l b ++ "\n"))
        ((nonBlankTrimmed lines).length) := by
  simp [process_file, processLines_eq]

/-- C4: when the input path does not exist, `process_file` raises
`FileNotFoundError` before the output path is opened — the output file is
neither created nor modified, and the error propagates immediately. -/
theorem process_file_not_found (lines : List String) (b : Bool) :
    process_file false lines b = ProcessResult.fileNotFound := rfl

/-- C9: when the input exists but every line trims to empty, the output
file is created and is empty, and the returned count is 0. -/
theorem process_file_all_blank (lines : List String) (b : Bool)
    (h : ∀ l ∈ lines, strip l = "") :
    process_file true lines b = ProcessResult.ok [] 0 := by
  have hnb : nonBlankTrimmed lines = [] := by
    unfold nonBlankTrimmed
    rw [List.filter_eq_nil_iff]
    intro a ha
    rcases List.mem_map.mp ha with ⟨l, hl, rfl⟩
    simp [h l hl]
  simp [process_file, processLines_eq, hnb]

/-- Witness for C9 on a concrete input file with an empty line and a
whitespace-only line. -/
theorem process_file_all_blank_witness :
    process_file true ["", "   "] true = ProcessResult.ok [] 0 :=
  process_file_all_blank ["", "   "] true (by decide)

end RegexRedact
